import Mathlib

/-!
Shallow embedding of the `isov8` crate's value model and evaluation interface
(`src/lib.rs`), together with proofs about its equality, ordering, hashing and
conversion behaviour.

Modelling conventions:
* JavaScript double-precision payloads (`f64` in `Value::Float` / `Value::Date`)
  are modelled as rationals: every finite double is a (dyadic) rational, default
  `f64` equality on finite values is exact value equality, and the claims under
  study involve only finite values.  NaN/infinity play no role in any claim.
* `v8::Function` payloads are opaque references compared by identity; they are
  modelled as a `Nat` identifier.
* `BTreeMap<Value, Value>` is modelled as its in-order entry list, with the
  map operations (`insert`, `contains_key`, `get`) defined through the crate's
  `Ord for Value` instance, exactly as `BTreeMap` performs them.
* `impl PartialEq for Value` in `lib.rs` ends in the arm `_ => *self == *other`,
  an unconditional self-call at unchanged arguments.  The embedding therefore
  uses step-indexed (fuel) recursion: `none` means the computation has not
  terminated within the given fuel, and divergence is `none` for every fuel.
* `impl Hash for Value` is modelled by the trace of `Hasher` write calls the
  implementation performs; two values receive identical hashes from any hasher
  iff their write traces coincide.
-/

/-- The result of running a Rust expression that can panic:
either a returned `Bool` or an out-of-bounds indexing panic. -/
inductive RunRes where
  | ok (b : Bool)
  | panicked
  deriving DecidableEq

/-- The closed tagged union `Value` from `src/lib.rs`. -/
inductive Value where
  | noValue
  | undefined
  | null
  | boolean (b : Bool)
  | float (f : ℚ)
  | integer (i : Int)
  | unsignedInteger (u : Nat)
  | date (d : ℚ)
  | string (s : String)
  | array (a : List Value)
  | function (fid : Nat)
  | object (o : List (Value × Value))

/-- `impl Ord for Value`: `cmp` ignores both arguments and returns `Equal`. -/
def Value.cmp (_ _ : Value) : Ordering := Ordering.eq

/-- `impl PartialOrd for Value`: `partial_cmp` ignores both arguments and
returns `None` (not `Some(Equal)`). -/
def Value.optCmp (_ _ : Value) : Option Ordering := none

/-- `BTreeMap::get` on the in-order entry list, resolving keys through
`Value.cmp` (the crate's `Ord` instance), as `BTreeMap` does. -/
def btreeGet (o : List (Value × Value)) (k : Value) : Option Value :=
  match o with
  | [] => none
  | e :: rest =>
    match Value.cmp k e.1 with
    | .lt => none
    | .eq => some e.2
    | .gt => btreeGet rest k

/-- `BTreeMap::contains_key`, through `Value.cmp`. -/
def btreeContainsKey (o : List (Value × Value)) (k : Value) : Bool :=
  (btreeGet o k).isSome

/-- `BTreeMap::insert`, through `Value.cmp`: when an existing key compares
`Equal` to the probe the value is replaced and the stored key kept. -/
def btreeInsert (o : List (Value × Value)) (k v : Value) : List (Value × Value) :=
  match o with
  | [] => [(k, v)]
  | e :: rest =>
    match Value.cmp k e.1 with
    | .lt => (k, v) :: e :: rest
    | .eq => (e.1, v) :: rest
    | .gt => e :: btreeInsert rest k v

/-- The loop in the `Array` arm of `impl PartialEq for Value`:
`for x in 0..a.len() { if a2[x] != a[x] { return false } }; true`.
The left operand's elements are traversed structurally (the list argument is
the remaining suffix of `a`, `x` its starting index); `a2[x]` is an unchecked
index, so a missing position is a panic.  `elemEq` is the element comparison
`eq(&a2[x], &a[x])` (the argument order of `!=`). -/
def arrayEqLoop (elemEq : Value → Value → Option RunRes) (a2 : List Value) :
    List Value → Nat → Option RunRes
  | [], _ => some (.ok true)
  | v :: rest, x =>
    match a2[x]? with
    | none => some .panicked
    | some w =>
      match elemEq w v with
      | none => none
      | some .panicked => some .panicked
      | some (.ok b) => if b then arrayEqLoop elemEq a2 rest (x + 1) else some (.ok false)

/-- `impl PartialEq for Value` from `src/lib.rs`, step-indexed: the first
argument is fuel (recursion depth budget); `none` means the comparison did not
return within that budget.  The final source arm `_ => *self == *other`
(covering `NoValue`, `Undefined`, `Null` on the left) is a self-call at
unchanged arguments, so it consumes fuel without progressing. -/
def Value.eq : Nat → Value → Value → Option RunRes
  | 0, _, _ => none
  | fuel + 1, v1, v2 =>
    match v1 with
    | .boolean b => some (.ok (match v2 with | .boolean b2 => b == b2 | _ => false))
    | .float f => some (.ok (match v2 with | .float f2 => f == f2 | _ => false))
    | .integer i => some (.ok (match v2 with | .integer i2 => i == i2 | _ => false))
    | .unsignedInteger u =>
      some (.ok (match v2 with | .unsignedInteger u2 => u == u2 | _ => false))
    | .date d => some (.ok (match v2 with | .date d2 => d == d2 | _ => false))
    | .string s => some (.ok (match v2 with | .string s2 => s == s2 | _ => false))
    | .function f => some (.ok (match v2 with | .function f2 => f == f2 | _ => false))
    | .object o =>
      some (.ok (match v2 with
        | .object o2 =>
          (o.all fun e => btreeContainsKey o2 e.1) && (o2.all fun e => btreeContainsKey o e.1)
        | _ => false))
    | .array a =>
      match v2 with
      | .array a2 => arrayEqLoop (fun x y => Value.eq fuel x y) a2 a 0
      | _ => some (.ok false)
    | _ => Value.eq fuel v1 v2


/-- One write call performed on a `std::hash::Hasher`.  `bytes s` stands for
`write(s.as_bytes())` (UTF-8 encoding is injective, so the string itself is
kept). -/
inductive HashWrite where
  | u8 (n : Nat)
  | u64 (n : Nat)
  | i32 (n : Int)
  | u32 (n : Nat)
  | bytes (s : String)
  deriving DecidableEq

/-- Rust's `f as u64` on a finite double modelled as a rational: truncation
toward zero, saturating at the ends of the `u64` range (negative inputs give
`0`). -/
def f64AsU64 (q : ℚ) : Nat :=
  if q < 0 then 0 else min (2 ^ 64 - 1) (Rat.floor q).toNat

mutual

/-- `impl Hash for Value` from `src/lib.rs`, as the trace of hasher writes.
In the `Object` arm the source hashes `o.get(x).unwrap()` for each key `x`;
since `BTreeMap::get` resolves keys through `Value.cmp` (always `Equal`), every
such lookup returns the map's first entry's value (see `btreeGet_degenerate`),
whose write trace is computed once and passed to `hashEntries`. -/
def Value.hashWrites : Value → List HashWrite
  | .noValue => [.u8 0]
  | .undefined => [.u8 1]
  | .null => [.u8 3]
  | .boolean t => [.u8 (if t then 4 else 5)]
  | .float f => [.u8 6, .u64 (f64AsU64 f)]
  | .integer i => [.u8 7, .i32 i]
  | .unsignedInteger u => [.u8 8, .u32 u]
  | .date d => [.u8 9, .u64 (f64AsU64 d)]
  | .string s => [.u8 10, .bytes s]
  | .array a => .u8 11 :: hashList a
  | .function _ => [.u8 12]
  | .object [] => [.u8 13]
  | .object ((k0, v0) :: rest) => .u8 13 :: hashEntries (Value.hashWrites v0) ((k0, v0) :: rest)

/-- The element loop of the `Array` arm of `impl Hash for Value`. -/
def hashList : List Value → List HashWrite
  | [] => []
  | v :: rest => Value.hashWrites v ++ hashList rest

/-- The key loop of the `Object` arm of `impl Hash for Value`: for each key,
hash the key, then the result of `o.get(x).unwrap()` — under the degenerate
`Ord` that lookup is always the first entry's value, whose trace is `hv`. -/
def hashEntries (hv : List HashWrite) : List (Value × Value) → List HashWrite
  | [] => []
  | (k, _) :: rest => Value.hashWrites k ++ hv ++ hashEntries hv rest

end

/-- A script-engine value as observed by `Value::new` (`src/lib.rs`): the
abstract result of the `v8` type predicates and accessor calls the converter
performs.  `vObject` carries the property list `get_property_names` / `get`
would enumerate, in engine order; `vOther` is a value matching none of the
tested predicates. -/
inductive V8Value where
  | vNull
  | vUndefined
  | vNumber (n : ℚ)
  | vString (s : String)
  | vDate (ms : ℚ)
  | vBoolean (b : Bool)
  | vArray (elems : List V8Value)
  | vObject (props : List (V8Value × V8Value))
  | vOther

mutual

/-- `Value::new` from `src/lib.rs`.  The source classifies by an `if`/`else if`
chain in this order: `is_null`, `is_undefined`, `is_number`, `is_uint32`,
`is_int32`, `is_string`, `is_date`, `is_boolean`, `is_object`, else `NoValue`.
Because `is_number` is true of every JavaScript number (including every value
that `is_uint32`/`is_int32` would accept), every `vNumber` takes the `Float`
branch and the two integer branches are unreachable.  An array of length `> 0`
converts element-by-element in index order; an empty array falls through to
the property-enumeration path, and an empty JavaScript array has no own
enumerable properties, so the enumerated list is `[]`. -/
def Value.new : V8Value → Value
  | .vNull => .null
  | .vUndefined => .undefined
  | .vNumber n => .float n
  | .vString s => .string s
  | .vDate ms => .date ms
  | .vBoolean b => .boolean b
  | .vArray elems =>
    if elems.length > 0 then .array (valueNewList elems)
    else .object []
  | .vObject props => .object (valueNewProps [] props)
  | .vOther => .noValue

/-- The element loop of the array branch of `Value::new`:
`for x in 0..ary.length() { new.push(Self::new(scope, v)) }`. -/
def valueNewList : List V8Value → List Value
  | [] => []
  | v :: rest => Value.new v :: valueNewList rest

/-- The property loop of the object branch of `Value::new`:
`new.insert(Self::new(scope, k), Self::new(scope, v))` over the enumerated
property list, starting from the accumulated map `acc`. -/
def valueNewProps (acc : List (Value × Value)) : List (V8Value × V8Value) → List (Value × Value)
  | [] => acc
  | (k, v) :: rest => valueNewProps (btreeInsert acc (Value.new k) (Value.new v)) rest

end

/-- Modelled from the spec: the numeric classification order the spec asserts
for `Value::new` — "check unsigned-32 fit, then signed-32 fit, then fall back
to float" — applied to a number payload.  This is the spec's claimed policy,
written for comparison against the source's actual behaviour. -/
def specNumberClassify (n : ℚ) : Value :=
  if n.den = 1 ∧ 0 ≤ n.num ∧ n.num < 2 ^ 32 then .unsignedInteger n.num.toNat
  else if n.den = 1 ∧ -2 ^ 31 ≤ n.num ∧ n.num < 2 ^ 31 then .integer n.num
  else .float n

/-- True exactly on the `Array` and `Object` variants. -/
def isContainerValue : Value → Bool
  | .array _ => true
  | .object _ => true
  | _ => false

/-- True exactly on the `Integer` and `UnsignedInteger` variants. -/
def isIntVariant : Value → Bool
  | .integer _ => true
  | .unsignedInteger _ => true
  | _ => false

/-- The first (discriminant) byte each variant writes in `impl Hash for Value`. -/
def firstTag : Value → Nat
  | .noValue => 0
  | .undefined => 1
  | .null => 3
  | .boolean b => if b then 4 else 5
  | .float _ => 6
  | .integer _ => 7
  | .unsignedInteger _ => 8
  | .date _ => 9
  | .string _ => 10
  | .array _ => 11
  | .function _ => 12
  | .object _ => 13

/-- An enumeration of the twelve variants of `Value`. -/
def variantIdx : Value → Nat
  | .noValue => 0
  | .undefined => 1
  | .null => 2
  | .boolean _ => 3
  | .float _ => 4
  | .integer _ => 5
  | .unsignedInteger _ => 6
  | .date _ => 7
  | .string _ => 8
  | .array _ => 9
  | .function _ => 10
  | .object _ => 11

/-- Recovers the variant from its hash discriminant byte (the tag values used
by `impl Hash for Value` are pairwise disjoint across variants). -/
def tagToVariant : Nat → Nat
  | 0 => 0
  | 1 => 1
  | 3 => 2
  | 4 => 3
  | 5 => 3
  | 6 => 4
  | 7 => 5
  | 8 => 6
  | 9 => 7
  | 10 => 8
  | 11 => 9
  | 12 => 10
  | 13 => 11
  | _ => 99

/-- The observable state of a `v8::TryCatch` scope when `exception` in
`src/lib.rs` inspects it: whether execution was externally terminated, and the
pending script exception's displayable string form, if any. -/
structure ScopeState where
  hasTerminated : Bool
  exception : Option String

/-- The error type of `src/lib.rs`. -/
inductive Error where
  | timeout
  | value (s : String)
  deriving DecidableEq

/-- The `exception` function from `src/lib.rs`: terminated execution reports
`Timeout`, else a pending exception reports `Value` of its string form, else
`Ok(Value::NoValue)`. -/
def exceptionCheck (s : ScopeState) : Except Error Value :=
  if s.hasTerminated then .error .timeout
  else
    match s.exception with
    | some e => .error (.value e)
    | none => .ok .noValue

/-- The result of a call to `IsoV8::eval`: either a returned `Result`, or a
panic raised by one of the two `.unwrap()` calls in
`script.unwrap().run(scope).unwrap()` (`src/lib.rs`, line 238). -/
inductive EvalOutcome where
  | ret (r : Except Error Value)
  | panicked

/-- `IsoV8::eval` from `src/lib.rs`: compile, check the scope
(`exception(scope)?`), then `script.unwrap().run(scope).unwrap()`, check the
scope again, and convert the completion value.  `afterCompile` and `afterRun`
are the try-catch scope states at the two checks.  `script` is the result of
`v8::Script::compile` (`none` when compilation returned no script, in which
case `script.unwrap()` panics if the post-compile check passed); on success it
carries the result of `run` on that script, which is `none` exactly when V8
produced no value — `MaybeLocal` semantics: the script threw at run time or
execution was terminated, with the try-catch holding the exception — and then
the second `.unwrap()` panics before the post-run check is reached. -/
def evalModel (afterCompile : ScopeState) (script : Option (Option V8Value))
    (afterRun : ScopeState) : EvalOutcome :=
  match exceptionCheck afterCompile with
  | .error e => .ret (.error e)
  | .ok _ =>
    match script with
    | none => .panicked
    | some runRes =>
      match runRes with
      | none => .panicked
      | some result =>
        match exceptionCheck afterRun with
        | .error e => .ret (.error e)
        | .ok _ => .ret (.ok (Value.new result))

/-! ## Helper lemmas -/

theorem btreeGet_degenerate (e : Value × Value) (rest : List (Value × Value)) (k : Value) :
    btreeGet (e :: rest) k = some e.2 := rfl

theorem btreeContainsKey_nil (k : Value) : btreeContainsKey [] k = false := rfl

theorem btreeContainsKey_cons (e : Value × Value) (rest : List (Value × Value)) (k : Value) :
    btreeContainsKey (e :: rest) k = true := rfl

theorem btreeInsert_cons_replaces (e : Value × Value) (rest : List (Value × Value))
    (k v : Value) : btreeInsert (e :: rest) k v = (e.1, v) :: rest := rfl

theorem all_btreeContainsKey_cons (b : Value × Value) (bs l : List (Value × Value)) :
    (l.all fun e => btreeContainsKey (b :: bs) e.1) = true := by
  simp [List.all_eq_true, btreeContainsKey_cons]

theorem btreeInsert_length (o : List (Value × Value)) (k v : Value) :
    (btreeInsert o k v).length = max 1 o.length := by
  cases o with
  | nil => rfl
  | cons e rest =>
    rw [btreeInsert_cons_replaces]
    simp only [List.length_cons]
    omega

theorem valueNewProps_length_le (props : List (V8Value × V8Value)) (acc : List (Value × Value))
    (h : acc.length ≤ 1) : (valueNewProps acc props).length ≤ 1 := by
  induction props generalizing acc with
  | nil => simpa [valueNewProps] using h
  | cons p rest ih =>
    obtain ⟨k, v⟩ := p
    have h2 : (btreeInsert acc (Value.new k) (Value.new v)).length ≤ 1 := by
      rw [btreeInsert_length]; omega
    simpa [valueNewProps] using ih _ h2

theorem valueNewList_eq_map (l : List V8Value) : valueNewList l = l.map Value.new := by
  induction l with
  | nil => simp [valueNewList]
  | cons v rest ih => simp [valueNewList, ih]

theorem tagToVariant_firstTag (v : Value) : tagToVariant (firstTag v) = variantIdx v := by
  cases v
  case boolean b => cases b <;> rfl
  all_goals rfl

theorem hashWrites_head (v : Value) :
    (Value.hashWrites v).head? = some (.u8 (firstTag v)) := by
  cases v
  case object o =>
    cases o with
    | nil => simp [Value.hashWrites, firstTag]
    | cons e rest =>
      obtain ⟨k0, v0⟩ := e
      simp [Value.hashWrites, firstTag]
  all_goals simp [Value.hashWrites, firstTag]

theorem floorNonnegOfNonneg (f : ℚ) (h : 0 ≤ f) : 0 ≤ Rat.floor f :=
  Rat.le_floor.mpr (by exact_mod_cast h)

theorem f64AsU64_eq_of_floor_eq (f f2 : ℚ) (h0 : 0 ≤ f) (h : Rat.floor f = Rat.floor f2) :
    f64AsU64 f = f64AsU64 f2 := by
  have h1 : (0 : ℤ) ≤ Rat.floor f2 := h ▸ floorNonnegOfNonneg f h0
  have h02 : (0 : ℚ) ≤ f2 := by exact_mod_cast Rat.le_floor.mp h1
  simp [f64AsU64, not_lt.mpr h0, not_lt.mpr h02, h]

theorem arrayEqLoop_all_true (elemEq : Value → Value → Option RunRes) (a2 : List Value) :
    ∀ (l : List Value) (x : Nat),
      (∀ (i : Nat) (v w : Value), l[i]? = some v → a2[x + i]? = some w →
        elemEq w v = some (.ok true)) →
      x + l.length ≤ a2.length →
      arrayEqLoop elemEq a2 l x = some (.ok true) := by
  intro l
  induction l with
  | nil => intro x _ _; simp [arrayEqLoop]
  | cons v rest ih =>
    intro x h hlen
    have hx : x < a2.length := by simp only [List.length_cons] at hlen; omega
    have hw : a2[x]? = some a2[x] := List.getElem?_eq_getElem hx
    have he : elemEq a2[x] v = some (.ok true) := by
      refine h 0 v a2[x] (by simp) (by simp)
    simp only [arrayEqLoop, hw, he, if_true]
    refine ih (x + 1) (fun i v' w' h1 h2 => ?_) ?_
    · refine h (i + 1) v' w' (by simpa using h1) ?_
      have hxi : x + 1 + i = x + (i + 1) := by omega
      rwa [hxi] at h2
    · simp only [List.length_cons] at hlen ⊢
      omega

theorem arrayEqLoop_oob (elemEq : Value → Value → Option RunRes) (a2 : List Value) :
    ∀ (l : List Value) (x : Nat),
      (∀ (i : Nat) (v w : Value), l[i]? = some v → a2[x + i]? = some w →
        elemEq w v = some (.ok true)) →
      x ≤ a2.length → a2.length < x + l.length →
      arrayEqLoop elemEq a2 l x = some .panicked := by
  intro l
  induction l with
  | nil => intro x _ hx hlen; simp only [List.length_nil] at hlen; omega
  | cons v rest ih =>
    intro x h hx hlen
    rcases Nat.lt_or_ge x a2.length with hlt | hge
    · have hw : a2[x]? = some a2[x] := List.getElem?_eq_getElem hlt
      have he : elemEq a2[x] v = some (.ok true) := by
        refine h 0 v a2[x] (by simp) (by simp)
      simp only [arrayEqLoop, hw, he, if_true]
      refine ih (x + 1) (fun i v' w' h1 h2 => ?_) (by omega) ?_
      · refine h (i + 1) v' w' (by simpa using h1) ?_
        have hxi : x + 1 + i = x + (i + 1) := by omega
        rwa [hxi] at h2
      · simp only [List.length_cons] at hlen ⊢
        omega
    · have hw : a2[x]? = none := List.getElem?_eq_none hge
      simp [arrayEqLoop, hw]

/-! ## Claim theorems -/

/-- Claim C1, counterexample: two singleton objects with different keys and
different mapped values still compare equal under `impl PartialEq for Value`,
so object equality is not "identical key sets and pointwise equal values". -/
theorem object_eq_true_despite_different_keys_and_values :
    Value.eq 1 (.object [(.string "a", .float 1)]) (.object [(.string "b", .float 2)]) =
      some (.ok true) ∧
    Value.string "a" ≠ Value.string "b" ∧ Value.float 1 ≠ Value.float 2 := by
  refine ⟨by decide, fun h => ?_, fun h => ?_⟩
  · injection h with h2
    exact absurd h2 (by decide)
  · injection h with h2
    exact absurd h2 (by decide)

/-- Claim C1, amended: the equality of two `Object` values never inspects the
mapped values and resolves key membership through the degenerate `Ord`
instance, so it reduces to agreement of emptiness: two objects compare equal
iff both are empty or both are non-empty. -/
theorem object_eq_iff_same_emptiness :
    ∀ (o o2 : List (Value × Value)) (fuel : Nat),
      Value.eq (fuel + 1) (.object o) (.object o2) =
        some (.ok (o.isEmpty == o2.isEmpty)) := by
  intro o o2 fuel
  cases o with
  | nil =>
    cases o2 with
    | nil => rfl
    | cons b bs => rfl
  | cons a as2 =>
    cases o2 with
    | nil => rfl
    | cons b bs =>
      simp [Value.eq, all_btreeContainsKey_cons, btreeContainsKey_cons]

/-- Claim C2, counterexample: two `Object` values that compare equal under
`impl PartialEq for Value` but whose `impl Hash for Value` write traces
differ, so `v1 == v2` does not imply equal hashes. -/
theorem object_eq_true_but_hash_traces_differ :
    Value.eq 1 (.object [(.string "a", .float 1)]) (.object [(.string "b", .float 1)]) =
      some (.ok true) ∧
    Value.hashWrites (.object [(.string "a", .float 1)]) ≠
      Value.hashWrites (.object [(.string "b", .float 1)]) := by
  constructor
  · decide
  · simp [Value.hashWrites, hashEntries]

/-- Claim C2, amended: the hash of a `Value` is a pure function of the value
(structurally equal values produce identical hasher write traces), and on all
non-container variants a true result of `impl PartialEq for Value` implies
equal hashes; for the `Array`/`Object` variants equality does not imply hash
equality (see the counterexample). -/
theorem hash_pure_and_scalar_eq_hash_consistency :
    (∀ v1 v2 : Value, v1 = v2 → Value.hashWrites v1 = Value.hashWrites v2) ∧
    (∀ (fuel : Nat) (v1 v2 : Value), isContainerValue v1 = false →
      Value.eq fuel v1 v2 = some (.ok true) →
      Value.hashWrites v1 = Value.hashWrites v2) := by
  constructor
  · intro v1 v2 h
    rw [h]
  · intro fuel
    induction fuel with
    | zero => intro v1 v2 _ h; simp [Value.eq] at h
    | succ n ih =>
      intro v1 v2 hc h
      cases v1 with
      | noValue => exact ih _ _ hc h
      | undefined => exact ih _ _ hc h
      | null => exact ih _ _ hc h
      | array a => simp [isContainerValue] at hc
      | object o => simp [isContainerValue] at hc
      | boolean b => cases v2 <;> simp_all [Value.eq, Value.hashWrites]
      | float f => cases v2 <;> simp_all [Value.eq, Value.hashWrites]
      | integer i => cases v2 <;> simp_all [Value.eq, Value.hashWrites]
      | unsignedInteger u => cases v2 <;> simp_all [Value.eq, Value.hashWrites]
      | date d => cases v2 <;> simp_all [Value.eq, Value.hashWrites]
      | string s => cases v2 <;> simp_all [Value.eq, Value.hashWrites]
      | function fid => cases v2 <;> simp_all [Value.eq, Value.hashWrites]

/-- Witness for the amended claim C2 theorem, at the `Float` variant: the two
syntactically distinct rational representations denote the same number, the
comparison returns true, and the theorem yields equal hash traces. -/
theorem hash_pure_and_scalar_eq_hash_consistency_witness :
    Value.hashWrites (.float (mkRat 3 2)) = Value.hashWrites (.float (mkRat 6 4)) :=
  hash_pure_and_scalar_eq_hash_consistency.2 1 (.float (mkRat 3 2)) (.float (mkRat 6 4))
    rfl (by decide)

/-- Claim C3, counterexample: `Value::new` checks `is_number` before
`is_uint32`/`is_int32`, so the script value `1` converts to `Float(1.0)` via
the number path, not to `UnsignedInteger(1)` as the spec's claimed
"unsigned-32 first" policy (`specNumberClassify`) would produce. -/
theorem number_one_converts_via_float_path :
    Value.new (.vNumber 1) = .float 1 ∧
    specNumberClassify 1 = .unsignedInteger 1 ∧
    Value.float 1 ≠ Value.unsignedInteger 1 := by
  refine ⟨by simp [Value.new], by norm_num [specNumberClassify], fun h => Value.noConfusion h⟩

/-- Claim C3, amended: the `is_number` test precedes the unsigned/signed
32-bit fit tests in `Value::new`, so every numeric script value converts via
the `Float` path and the `Integer`/`UnsignedInteger` branches are unreachable:
no conversion result is ever of those variants. -/
theorem number_conversion_always_float :
    (∀ n : ℚ, Value.new (.vNumber n) = .float n) ∧
    (∀ v : V8Value, isIntVariant (Value.new v) = false) := by
  constructor
  · intro n
    simp [Value.new]
  · intro v
    cases v
    case vArray elems =>
      by_cases h : elems.length > 0 <;> simp [Value.new, h, isIntVariant]
    all_goals simp [Value.new, isIntVariant]

/-- Claim C4: in `src/lib.rs` the final arm of `impl PartialEq for Value` is
`_ => *self == *other`, an unconditional self-call at unchanged arguments; so
any comparison with `NoValue`, `Undefined` or `Null` on the left diverges
(never returns, for every fuel), including `Undefined == Null` (the claim and
the repaired copy in `src/value.rs` expect `false`) and cross-variant
comparisons such as `NoValue == Boolean(true)`. -/
theorem eq_diverges_on_novalue_undefined_null :
    ∀ fuel : Nat,
      Value.eq fuel .undefined .null = none ∧
      Value.eq fuel .null .undefined = none ∧
      Value.eq fuel .null .null = none ∧
      Value.eq fuel .undefined .undefined = none ∧
      Value.eq fuel .noValue .noValue = none ∧
      Value.eq fuel .noValue (.boolean true) = none := by
  intro fuel
  induction fuel with
  | zero => exact ⟨rfl, rfl, rfl, rfl, rfl, rfl⟩
  | succ n ih => exact ih

/-- Claim C5, counterexample: `PartialOrd::partial_cmp` (part of the ordering
interface, cited by the claim) reports `None` — "incomparable" — on every
pair, not `Some(Equal)`. -/
theorem ordering_reports_incomparable_not_equal :
    Value.optCmp .null .null = none ∧ (none : Option Ordering) ≠ some Ordering.eq :=
  ⟨rfl, by decide⟩

/-- Claim C5, amended: the ordering is degenerate, but in two different ways:
`Ord::cmp` reports every pair as `Equal`, while `PartialOrd::partial_cmp`
reports every pair as `None` (incomparable); neither confers a real order. -/
theorem cmp_always_equal_and_optCmp_always_none :
    ∀ v1 v2 : Value, Value.cmp v1 v2 = Ordering.eq ∧ Value.optCmp v1 v2 = none :=
  fun _ _ => ⟨rfl, rfl⟩

/-- Claim C6: `Value::new` produces the `Array` variant exactly when the
script array is non-empty, converting element by element in index order
(`List.map` preserves positions); an empty script array falls through to
generic object materialization (an empty JavaScript array enumerates no own
properties) and yields the empty `Object` variant. -/
theorem array_conversion_iff_nonempty :
    (∀ elems : List V8Value, elems.length > 0 →
      Value.new (.vArray elems) = .array (elems.map Value.new)) ∧
    Value.new (.vArray []) = .object [] ∧
    (∀ elems : List V8Value,
      (∃ a, Value.new (.vArray elems) = .array a) ↔ elems.length > 0) := by
  refine ⟨fun elems h => by simp [Value.new, h, valueNewList_eq_map], by simp [Value.new],
    fun elems => ⟨?_, fun h => ⟨elems.map Value.new, by simp [Value.new, h, valueNewList_eq_map]⟩⟩⟩
  rintro ⟨a, ha⟩
  by_contra hlen
  have h0 : elems = [] := List.length_eq_zero.mp (by omega)
  subst h0
  have h1 : Value.new (.vArray []) = .object [] := by simp [Value.new]
  rw [h1] at ha
  exact Value.noConfusion ha

/-- Witness for the claim C6 theorem: a one-element script array converts to
the `Array` variant with the element converted in place. -/
theorem array_conversion_iff_nonempty_witness :
    Value.new (.vArray [.vNumber 1]) = .array ([V8Value.vNumber 1].map Value.new) :=
  array_conversion_iff_nonempty.1 [.vNumber 1] (by decide)

/-- Claim C7: the compile-phase half of the claim holds — at the post-compile
check, termination reports `Timeout` (taking precedence over a pending
exception, since `has_terminated` is tested first) and a pending compile
exception reports `Value(d)` — but the execution half does not: when the
script throws at run time or is terminated during execution, `Script::run`
returns no value and the `.unwrap()` on it panics before the post-run check is
ever reached, for every post-run scope state (in particular one holding the
pending exception); so `eval` never returns `Err(Value(..))` or
`Err(Timeout)` for execution errors, and a panic is neither of those. -/
theorem eval_panics_on_runtime_exception :
    ∀ (ac ar : ScopeState) (script : Option (Option V8Value)) (d : String),
      (ac.hasTerminated = true → evalModel ac script ar = .ret (.error .timeout)) ∧
      (ac.hasTerminated = false → ac.exception = some d →
        evalModel ac script ar = .ret (.error (.value d))) ∧
      (ac.hasTerminated = false → ac.exception = none →
        evalModel ac (some none) ar = .panicked) ∧
      EvalOutcome.panicked ≠ .ret (.error (.value d)) ∧
      EvalOutcome.panicked ≠ .ret (.error .timeout) := by
  intro ac ar script d
  refine ⟨fun h1 => ?_, fun h1 h2 => ?_, fun h1 h2 => ?_, fun h => ?_, fun h => ?_⟩
  · simp [evalModel, exceptionCheck, h1]
  · simp [evalModel, exceptionCheck, h1, h2]
  · simp [evalModel, exceptionCheck, h1, h2]
  · exact EvalOutcome.noConfusion h
  · exact EvalOutcome.noConfusion h

/-- Witness for the claim C7 theorem: a script whose execution threw — `run`
returned no value and the post-run scope holds the pending exception string —
makes `eval` panic instead of returning the classified error. -/
theorem eval_panics_on_runtime_exception_witness :
    evalModel ⟨false, none⟩ (some none) ⟨false, some "Error: boom"⟩ = .panicked :=
  (eval_panics_on_runtime_exception ⟨false, none⟩ ⟨false, some "Error: boom"⟩ (some none)
    "Error: boom").2.2.1 rfl rfl

/-- Claim C8: every variant's hash trace starts with a `write_u8` of a
discriminant byte that identifies the variant (distinct variants never share a
first byte), and the `Float`/`Date` payloads are truncated to their integer
part (`as u64`) before hashing, so two numbers with the same integer part —
in particular two nonnegative numbers with the same floor — hash
identically. -/
theorem hash_tag_first_unique_and_float_truncation :
    (∀ v : Value, (Value.hashWrites v).head? = some (.u8 (firstTag v))) ∧
    (∀ v1 v2 : Value, firstTag v1 = firstTag v2 → variantIdx v1 = variantIdx v2) ∧
    (∀ f f2 : ℚ, 0 ≤ f → Rat.floor f = Rat.floor f2 →
      Value.hashWrites (.float f) = Value.hashWrites (.float f2) ∧
      Value.hashWrites (.date f) = Value.hashWrites (.date f2)) := by
  refine ⟨hashWrites_head, fun v1 v2 h => ?_, fun f f2 h0 h => ?_⟩
  · rw [← tagToVariant_firstTag v1, ← tagToVariant_firstTag v2, h]
  · have ht := f64AsU64_eq_of_floor_eq f f2 h0 h
    exact ⟨by simp [Value.hashWrites, ht], by simp [Value.hashWrites, ht]⟩

/-- Witness for the claim C8 theorem: the distinct floats 3/2 and 7/4 share
the integer part 1, so both their `Float` and `Date` hash traces coincide. -/
theorem hash_tag_first_unique_and_float_truncation_witness :
    Value.hashWrites (.float (mkRat 3 2)) = Value.hashWrites (.float (mkRat 7 4)) ∧
    Value.hashWrites (.date (mkRat 3 2)) = Value.hashWrites (.date (mkRat 7 4)) :=
  hash_tag_first_unique_and_float_truncation.2.2 (mkRat 3 2) (mkRat 7 4)
    (by decide) (by decide)

/-- Claim C9: because `Ord::cmp` reports every pair equal, a `BTreeMap` insert
into a non-empty map always replaces the single existing entry, so the
property-insertion loop of `Value::new` produces maps with at most one entry,
every `Object` produced by `Value::new` has at most one entry, and
`contains_key` on any non-empty map succeeds for every key whatsoever. -/
theorem object_maps_hold_at_most_one_entry :
    (∀ (e : Value × Value) (rest : List (Value × Value)) (k v : Value),
      btreeInsert (e :: rest) k v = (e.1, v) :: rest) ∧
    (∀ props : List (V8Value × V8Value), (valueNewProps [] props).length ≤ 1) ∧
    (∀ (v : V8Value) (o : List (Value × Value)), Value.new v = .object o → o.length ≤ 1) ∧
    (∀ (o : List (Value × Value)) (k : Value), o ≠ [] → btreeContainsKey o k = true) := by
  refine ⟨btreeInsert_cons_replaces, fun props => valueNewProps_length_le props [] (by simp),
    fun v o h => ?_, fun o k h => ?_⟩
  · cases v
    case vObject props =>
      simp only [Value.new, Value.object.injEq] at h
      subst h
      exact valueNewProps_length_le props [] (by simp)
    case vArray elems =>
      simp only [Value.new] at h
      split at h
      · exact Value.noConfusion h
      · simp only [Value.object.injEq] at h
        subst h
        simp
    all_goals (simp only [Value.new] at h; exact Value.noConfusion h)
  · cases o with
    | nil => exact absurd rfl h
    | cons e rest => exact btreeContainsKey_cons e rest k

/-- Witness for the claim C9 theorem: membership of a completely unrelated key
in a non-empty singleton object map succeeds, and converting a two-property
script object yields a map of at most one entry. -/
theorem object_maps_hold_at_most_one_entry_witness :
    btreeContainsKey [(Value.string "k", Value.float 1)] (Value.integer 42) = true ∧
    (valueNewProps [] [(.vString "a", .vNumber 1), (.vString "b", .vNumber 2)]).length ≤ 1 :=
  ⟨object_maps_hold_at_most_one_entry.2.2.2 [(Value.string "k", Value.float 1)]
      (Value.integer 42) (by simp),
    object_maps_hold_at_most_one_entry.2.1 [(.vString "a", .vNumber 1), (.vString "b", .vNumber 2)]⟩

/-- Claim C10, counterexample: a pair of arrays with a strictly longer left
operand on which the comparison does NOT perform an out-of-bounds access: the
first element comparison returns false, so the loop exits before reaching the
missing index and the result is `false`, not a panic. -/
theorem array_longer_left_returns_false_without_panic :
    Value.eq 2 (.array [.float 1, .float 2]) (.array [.float 9]) = some (.ok false) ∧
    some (RunRes.ok false) ≠ some RunRes.panicked := by
  exact ⟨by decide, by decide⟩

/-- Claim C10, amended: array equality iterates over the left operand's
indices and indexes the right operand without a bounds check.  When every
position present in both arrays compares equal: a strictly longer left
operand makes the loop perform an out-of-bounds index access (panic), and a
left operand that is a proper elementwise-equal prefix of the right returns
`true` despite the differing lengths — so array equality is neither total nor
symmetric (witnessed concretely by `[1.0] == [1.0, 2.0]` being `true` while
the swapped comparison panics). -/
theorem array_eq_unchecked_indexing :
    (∀ (a a2 : List Value) (fuel : Nat), a2.length < a.length →
      (∀ (i : Nat) (v w : Value), a[i]? = some v → a2[i]? = some w →
        Value.eq fuel w v = some (.ok true)) →
      Value.eq (fuel + 1) (.array a) (.array a2) = some .panicked) ∧
    (∀ (a a2 : List Value) (fuel : Nat), a.length < a2.length →
      (∀ (i : Nat) (v w : Value), a[i]? = some v → a2[i]? = some w →
        Value.eq fuel w v = some (.ok true)) →
      Value.eq (fuel + 1) (.array a) (.array a2) = some (.ok true)) ∧
    (Value.eq 2 (.array [.float 1]) (.array [.float 1, .float 2]) = some (.ok true) ∧
      Value.eq 2 (.array [.float 1, .float 2]) (.array [.float 1]) = some .panicked) := by
  refine ⟨fun a a2 fuel hlen h => ?_, fun a a2 fuel hlen h => ?_, by decide, by decide⟩
  · show arrayEqLoop (fun x y => Value.eq fuel x y) a2 a 0 = some .panicked
    exact arrayEqLoop_oob _ a2 a 0
      (fun i v w h1 h2 => h i v w h1 (by simpa using h2)) (Nat.zero_le _) (by omega)
  · show arrayEqLoop (fun x y => Value.eq fuel x y) a2 a 0 = some (.ok true)
    exact arrayEqLoop_all_true _ a2 a 0
      (fun i v w h1 h2 => h i v w h1 (by simpa using h2)) (by omega)

/-- Witness for the amended claim C10 theorem: a non-empty left array against
an empty right array immediately indexes out of bounds and panics. -/
theorem array_eq_unchecked_indexing_witness :
    Value.eq 1 (.array [.float 1]) (.array []) = some .panicked :=
  array_eq_unchecked_indexing.1 [.float 1] [] 0 (by decide)
    (fun i v w _ h2 => by simp at h2)
